import Mathlib

/-!
Shallow embedding of `src/LDPC.py` (class `LDPC`, a sum-product LDPC decoder)
and verification of its specification.

Modelling conventions:
* numpy float arithmetic is idealised as real arithmetic (`ℝ`); matrix and
  vector entries read from files are small integers, modelled as `ℤ`;
* the object attributes set by `__init__`/`_initialize` form the record
  `LDPCState`; the parity-check matrix `H` is stored unchanged by the code
  and is passed as an ambient parameter;
* the neighbour dictionaries `c2v_idx` / `v2c_idx` are built once in
  `_initialize` from `H` via the `H*range(1,n+1)-1` indexing trick and are
  never mutated, so they are modelled as functions of `H`;
* the Python dictionaries of messages hold one entry per Tanner-graph edge;
  they are modelled as total functions whose value off the edge set is the
  initial value and is never read nor written by the updates;
* the in-place `for` loops of `_check2variable` and `_variable2check` are
  folds that thread the mutated state, iterating sets in ascending index
  order (Python set iteration order is unspecified; the equivalence with the
  double-buffered round proved below shows the order is irrelevant);
* `_initialize` line 43 reads the free name `eps`, which Python resolves to
  the module-level binding (created by the `__main__` block), not to
  `self.eps`; the model therefore takes the module binding as an
  `Option ℝ` (`none` models an unbound name, on which Python raises
  `NameError` before any state is created).
-/

open Finset

/-- Attributes of one `LDPC` decode session, as set by `_initialize`
(`src/LDPC.py` lines 20–74) and mutated by the update rounds. -/
@[ext]
structure LDPCState (M N : ℕ) where
  ch_liks : Fin N → ℝ
  var_liks : Fin N → ℝ
  c2v_lik : Fin M → Fin N → ℝ
  v2c_lik : Fin N → Fin M → ℝ
  xpred : Fin N → ℝ
  l : ℕ
  converged : Bool
  runs : ℕ
  eps : ℝ

/-- Entry of `H1 = self.H*range(1, self.H.shape[1]+1)-1` (line 55): row `c`
of `H` multiplied elementwise by `1..N`, minus one. -/
def H1ent {M N : ℕ} (H : Fin M → Fin N → ℤ) (c : Fin M) (v : Fin N) : ℤ :=
  H c v * ((v : ℤ) + 1) - 1

/-- Neighbour variables of check `c`: `self.c2v_idx[c] = [v | H1[c][v] != -1]`
(line 57).  For a binary matrix the surviving value `H[c][v]*(v+1)-1` is `v`
itself, so the entry set is recorded as a set of column indices. -/
def c2v_idx {M N : ℕ} (H : Fin M → Fin N → ℤ) (c : Fin M) : Finset (Fin N) :=
  Finset.univ.filter (fun v => H1ent H c v ≠ -1)

/-- Entry of `H2 = self.H.T*range(1, self.H.shape[0]+1)-1` (line 70). -/
def H2ent {M N : ℕ} (H : Fin M → Fin N → ℤ) (v : Fin N) (c : Fin M) : ℤ :=
  H c v * ((c : ℤ) + 1) - 1

/-- Neighbour checks of variable `v`: `self.v2c_idx[v]` (line 72). -/
def v2c_idx {M N : ℕ} (H : Fin M → Fin N → ℤ) (v : Fin N) : Finset (Fin M) :=
  Finset.univ.filter (fun c => H2ent H v c ≠ -1)

/-- Channel log-likelihood ratio of one received symbol (line 43):
`ln((1-eps)/eps)` if the symbol is `0`, else `ln(eps/(1-eps))`. -/
noncomputable def epsLLR (eps : ℝ) (yi : ℤ) : ℝ :=
  if yi = 0 then Real.log ((1 - eps) / eps) else Real.log (eps / (1 - eps))

/-- `__init__` plus `_initialize` (lines 20–74): stores the constructor
arguments, then builds the decode state.  `selfEps` is the constructor's
`eps` argument (stored as `self.eps`); `moduleEps` is the module-level
binding of the free name `eps` actually read on line 43 (`none` = unbound,
Python raises `NameError` and no object state survives).  Messages:
check-to-variable all `0`, variable-to-check the channel LLR of the source
variable; `var_liks` starts as a copy of `ch_liks`; `xpred` does not exist
yet in Python and is modelled as the all-zero placeholder, first written by
`_updatePred` before its only reader `_checkConvergence` runs. -/
noncomputable def initState {M N : ℕ} (y : Fin N → ℤ) (selfEps : ℝ) (runs : ℕ)
    (eps : ℝ) : LDPCState M N :=
  { ch_liks := fun i => epsLLR eps (y i)
    var_liks := fun i => epsLLR eps (y i)
    c2v_lik := fun _ _ => 0
    v2c_lik := fun i _ => epsLLR eps (y i)
    xpred := fun _ => 0
    l := 0
    converged := false
    runs := runs
    eps := selfEps }

/-- Dispatch on whether the free name `eps` is bound at module level. -/
noncomputable def initLDPC {M N : ℕ} (y : Fin N → ℤ) (selfEps : ℝ) (runs : ℕ)
    (moduleEps : Option ℝ) : Option (LDPCState M N) :=
  match moduleEps with
  | none => none
  | some eps => some (initState y selfEps runs eps)

/-- The product `p = prod(tanh(m/2))` over the incoming variable-to-check
messages of check `c` excluding variable `v` (lines 89–93). -/
noncomputable def c2vProd {M N : ℕ} (H : Fin M → Fin N → ℤ) (s : LDPCState M N)
    (c : Fin M) (v : Fin N) : ℝ :=
  ∏ n ∈ (c2v_idx H c).erase v, Real.tanh (s.v2c_lik n c / 2)

/-- The updated check-to-variable message `ln((1+p)/(1-p))` (line 95),
computed from the raw product with no clamping. -/
noncomputable def c2vNewMsg {M N : ℕ} (H : Fin M → Fin N → ℤ) (s : LDPCState M N)
    (c : Fin M) (v : Fin N) : ℝ :=
  Real.log ((1 + c2vProd H s c v) / (1 - c2vProd H s c v))

/-- In-place write of one check-to-variable message (line 97). -/
noncomputable def c2vWrite {M N : ℕ} (s : LDPCState M N) (c : Fin M) (v : Fin N)
    (x : ℝ) : LDPCState M N :=
  { s with c2v_lik := fun c' v' => if c' = c ∧ v' = v then x else s.c2v_lik c' v' }

/-- `_check2variable` (lines 76–97): for every check node, for every
neighbouring variable, overwrite the message in place, reading the current
(threaded) state. -/
noncomputable def check2variable {M N : ℕ} (H : Fin M → Fin N → ℤ)
    (s : LDPCState M N) : LDPCState M N :=
  (List.finRange M).foldl (fun s1 c =>
    ((c2v_idx H c).sort (· ≤ ·)).foldl
      (fun s2 v => c2vWrite s2 c v (c2vNewMsg H s2 c v)) s1) s

/-- Double-buffered check-to-variable round following the specification's
flooding-schedule wording: every message of the round is computed from the
complete previous state. -/
noncomputable def check2variableBuf {M N : ℕ} (H : Fin M → Fin N → ℤ)
    (s : LDPCState M N) : LDPCState M N :=
  { s with c2v_lik := fun c v =>
      if v ∈ c2v_idx H c then c2vNewMsg H s c v else s.c2v_lik c v }

/-- The updated variable-to-check message: channel LLR plus the sum of the
incoming check-to-variable messages excluding check `c` (line 112). -/
noncomputable def v2cNewMsg {M N : ℕ} (H : Fin M → Fin N → ℤ) (s : LDPCState M N)
    (v : Fin N) (c : Fin M) : ℝ :=
  s.ch_liks v + ∑ m ∈ (v2c_idx H v).erase c, s.c2v_lik m v

/-- The full belief of variable `v`: channel LLR plus the sum over all
neighbouring checks (line 114). -/
noncomputable def varBelief {M N : ℕ} (H : Fin M → Fin N → ℤ) (s : LDPCState M N)
    (v : Fin N) : ℝ :=
  s.ch_liks v + ∑ m ∈ v2c_idx H v, s.c2v_lik m v

/-- In-place write of one variable-to-check message (line 112). -/
noncomputable def v2cWrite {M N : ℕ} (s : LDPCState M N) (v : Fin N) (c : Fin M)
    (x : ℝ) : LDPCState M N :=
  { s with v2c_lik := fun v' c' => if v' = v ∧ c' = c then x else s.v2c_lik v' c' }

/-- In-place write of one belief entry (line 114). -/
noncomputable def varLikWrite {M N : ℕ} (s : LDPCState M N) (v : Fin N)
    (x : ℝ) : LDPCState M N :=
  { s with var_liks := fun v' => if v' = v then x else s.var_liks v' }

/-- `_variable2check` (lines 99–114): for every variable node, overwrite each
outgoing message in place, then overwrite the belief entry, reading the
current (threaded) state. -/
noncomputable def variable2check {M N : ℕ} (H : Fin M → Fin N → ℤ)
    (s : LDPCState M N) : LDPCState M N :=
  (List.finRange N).foldl (fun s1 v =>
    let s2 := ((v2c_idx H v).sort (· ≤ ·)).foldl
      (fun t c => v2cWrite t v c (v2cNewMsg H t v c)) s1
    varLikWrite s2 v (varBelief H s2 v)) s

/-- Double-buffered variable-to-check round following the specification's
flooding-schedule wording. -/
noncomputable def variable2checkBuf {M N : ℕ} (H : Fin M → Fin N → ℤ)
    (s : LDPCState M N) : LDPCState M N :=
  { s with
    v2c_lik := fun v c =>
      if c ∈ v2c_idx H v then v2cNewMsg H s v c else s.v2c_lik v c
    var_liks := fun v => varBelief H s v }

/-- `_updatePred` (lines 116–121): hard decision, `0` when the belief is
non-negative, else `1`. -/
noncomputable def updatePred {M N : ℕ} (s : LDPCState M N) : LDPCState M N :=
  { s with xpred := fun v => if s.var_liks v ≥ 0 then 0 else 1 }

/-- One entry of `np.dot(self.H, self.xpred)`. -/
noncomputable def syndrome {M N : ℕ} (H : Fin M → Fin N → ℤ) (s : LDPCState M N)
    (c : Fin M) : ℝ :=
  ∑ v, (H c v : ℝ) * s.xpred v

/-- Floating `% 2` as numpy computes it: `x - 2*floor(x/2)`. -/
noncomputable def fmod2 (x : ℝ) : ℝ := x - 2 * (⌊x / 2⌋ : ℝ)

/-- `_checkConvergence` (lines 123–128): set the flag to the truth value of
`np.sum(np.dot(H, xpred) % 2) == 0`. -/
noncomputable def checkConvergence {M N : ℕ} (H : Fin M → Fin N → ℤ)
    (s : LDPCState M N) : LDPCState M N :=
  { s with converged := if (∑ c, fmod2 (syndrome H s c)) = 0 then true else false }

/-- One body of the `while` loop of `message_passing` (lines 137–147): the
four update calls followed by the counter increment. -/
noncomputable def bpStep {M N : ℕ} (H : Fin M → Fin N → ℤ)
    (s : LDPCState M N) : LDPCState M N :=
  let s4 := checkConvergence H (updatePred (variable2check H (check2variable H s)))
  { s4 with l := s4.l + 1 }

/-- Fuel-indexed unfolding of `while self.l < self.runs and not self.converged`.
Each `bpStep` increases `l` by exactly one and leaves `runs` unchanged, so
`runs - l` steps of fuel always reach the loop's exit condition. -/
noncomputable def bpLoop {M N : ℕ} (H : Fin M → Fin N → ℤ) :
    ℕ → LDPCState M N → LDPCState M N
  | 0, s => s
  | fuel + 1, s =>
      if s.l < s.runs ∧ s.converged = false then bpLoop H fuel (bpStep H s) else s

/-- `message_passing` (lines 130–153), minus the final status print. -/
noncomputable def message_passing {M N : ℕ} (H : Fin M → Fin N → ℤ)
    (s : LDPCState M N) : LDPCState M N :=
  bpLoop H (s.runs - s.l) s

/-- A parity-check matrix is binary when every entry is `0` or `1`. -/
def IsBinaryMatrix {M N : ℕ} (H : Fin M → Fin N → ℤ) : Prop :=
  ∀ c v, H c v = 0 ∨ H c v = 1

instance {M N : ℕ} (H : Fin M → Fin N → ℤ) : Decidable (IsBinaryMatrix H) := by
  unfold IsBinaryMatrix
  infer_instance

theorem mem_c2v_idx {M N : ℕ} (H : Fin M → Fin N → ℤ) (c : Fin M) (v : Fin N) :
    v ∈ c2v_idx H c ↔ H c v ≠ 0 := by
  simp only [c2v_idx, Finset.mem_filter, Finset.mem_univ, true_and]
  unfold H1ent
  constructor
  · intro h h0
    exact h (by rw [h0]; ring)
  · intro h hEq
    have hmul : H c v * ((v : ℤ) + 1) = 0 := by linarith
    rcases mul_eq_zero.mp hmul with h1 | h2
    · exact h h1
    · have : (0 : ℤ) ≤ (v : ℤ) := Int.natCast_nonneg v
      omega

theorem mem_v2c_idx {M N : ℕ} (H : Fin M → Fin N → ℤ) (v : Fin N) (c : Fin M) :
    c ∈ v2c_idx H v ↔ H c v ≠ 0 := by
  simp only [v2c_idx, Finset.mem_filter, Finset.mem_univ, true_and]
  unfold H2ent
  constructor
  · intro h h0
    exact h (by rw [h0]; ring)
  · intro h hEq
    have hmul : H c v * ((c : ℤ) + 1) = 0 := by linarith
    rcases mul_eq_zero.mp hmul with h1 | h2
    · exact h h1
    · have : (0 : ℤ) ≤ (c : ℤ) := Int.natCast_nonneg c
      omega

theorem c2vNewMsg_congr {M N : ℕ} (H : Fin M → Fin N → ℤ) {s1 s2 : LDPCState M N}
    (h : s1.v2c_lik = s2.v2c_lik) (c : Fin M) (v : Fin N) :
    c2vNewMsg H s1 c v = c2vNewMsg H s2 c v := by
  simp [c2vNewMsg, c2vProd, h]

theorem c2v_inner_fold {M N : ℕ} (H : Fin M → Fin N → ℤ) (c : Fin M)
    (L : List (Fin N)) :
    ∀ s : LDPCState M N,
      L.foldl (fun s2 v => c2vWrite s2 c v (c2vNewMsg H s2 c v)) s =
      { s with c2v_lik := fun c' v' =>
          if c' = c ∧ v' ∈ L then c2vNewMsg H s c v' else s.c2v_lik c' v' } := by
  induction L with
  | nil => intro s; simp
  | cons v L ih =>
      intro s
      simp only [List.foldl_cons]
      rw [ih]
      ext c' v'
      · rfl
      · rfl
      · by_cases hc : c' = c <;> by_cases hv : v' = v <;> by_cases hL : v' ∈ L <;>
          simp [c2vWrite, c2vNewMsg, c2vProd, List.mem_cons, hc, hv, hL]
      · rfl
      · rfl
      · rfl
      · rfl
      · rfl
      · rfl

theorem c2v_outer_fold {M N : ℕ} (H : Fin M → Fin N → ℤ) (Lc : List (Fin M)) :
    ∀ s : LDPCState M N,
      Lc.foldl (fun s1 c => ((c2v_idx H c).sort (· ≤ ·)).foldl
          (fun s2 v => c2vWrite s2 c v (c2vNewMsg H s2 c v)) s1) s =
      { s with c2v_lik := fun c' v' =>
          if c' ∈ Lc ∧ v' ∈ c2v_idx H c' then c2vNewMsg H s c' v'
          else s.c2v_lik c' v' } := by
  induction Lc with
  | nil => intro s; simp
  | cons c Lc ih =>
      intro s
      simp only [List.foldl_cons]
      rw [c2v_inner_fold H c _ s, ih]
      ext c' v'
      · rfl
      · rfl
      · by_cases hc : c' = c <;> by_cases hLc : c' ∈ Lc <;>
          by_cases hv : v' ∈ c2v_idx H c' <;>
          simp [c2vNewMsg, c2vProd, Finset.mem_sort, List.mem_cons, hc, hLc, hv] <;>
          simp_all
      · rfl
      · rfl
      · rfl
      · rfl
      · rfl
      · rfl

theorem check2variable_eq_buf {M N : ℕ} (H : Fin M → Fin N → ℤ)
    (s : LDPCState M N) : check2variable H s = check2variableBuf H s := by
  unfold check2variable check2variableBuf
  rw [c2v_outer_fold H (List.finRange M) s]
  simp [List.mem_finRange]

theorem v2c_inner_fold {M N : ℕ} (H : Fin M → Fin N → ℤ) (v : Fin N)
    (L : List (Fin M)) :
    ∀ s : LDPCState M N,
      L.foldl (fun t c => v2cWrite t v c (v2cNewMsg H t v c)) s =
      { s with v2c_lik := fun v' c' =>
          if v' = v ∧ c' ∈ L then v2cNewMsg H s v c' else s.v2c_lik v' c' } := by
  induction L with
  | nil => intro s; simp
  | cons c L ih =>
      intro s
      simp only [List.foldl_cons]
      rw [ih]
      ext v' c'
      · rfl
      · rfl
      · rfl
      · by_cases hv : v' = v <;> by_cases hc : c' = c <;> by_cases hL : c' ∈ L <;>
          simp [v2cWrite, v2cNewMsg, List.mem_cons, hv, hc, hL]
      · rfl
      · rfl
      · rfl
      · rfl
      · rfl

theorem v2c_outer_fold {M N : ℕ} (H : Fin M → Fin N → ℤ) (Lv : List (Fin N)) :
    ∀ s : LDPCState M N,
      Lv.foldl (fun s1 v =>
        let s2 := ((v2c_idx H v).sort (· ≤ ·)).foldl
          (fun t c => v2cWrite t v c (v2cNewMsg H t v c)) s1
        varLikWrite s2 v (varBelief H s2 v)) s =
      { s with
        v2c_lik := fun v' c' =>
          if v' ∈ Lv ∧ c' ∈ v2c_idx H v' then v2cNewMsg H s v' c'
          else s.v2c_lik v' c'
        var_liks := fun v' =>
          if v' ∈ Lv then varBelief H s v' else s.var_liks v' } := by
  induction Lv with
  | nil => intro s; simp
  | cons v Lv ih =>
      intro s
      simp only [List.foldl_cons]
      rw [v2c_inner_fold H v _ s, ih]
      ext v' c'
      · rfl
      · by_cases hv : v' = v <;> by_cases hLv : v' ∈ Lv <;>
          simp [varLikWrite, varBelief, List.mem_cons, hv, hLv]
      · rfl
      · by_cases hv : v' = v <;> by_cases hLv : v' ∈ Lv <;>
          by_cases hc : c' ∈ v2c_idx H v' <;>
          simp [varLikWrite, v2cNewMsg, Finset.mem_sort, List.mem_cons, hv, hLv, hc] <;>
          simp_all
      · rfl
      · rfl
      · rfl
      · rfl
      · rfl

theorem variable2check_eq_buf {M N : ℕ} (H : Fin M → Fin N → ℤ)
    (s : LDPCState M N) : variable2check H s = variable2checkBuf H s := by
  unfold variable2check variable2checkBuf
  rw [v2c_outer_fold H (List.finRange N) s]
  simp [List.mem_finRange]

theorem bpStep_l {M N : ℕ} (H : Fin M → Fin N → ℤ) (s : LDPCState M N) :
    (bpStep H s).l = s.l + 1 := by
  simp [bpStep, check2variable_eq_buf, variable2check_eq_buf, check2variableBuf,
    variable2checkBuf, updatePred, checkConvergence]

theorem bpStep_runs {M N : ℕ} (H : Fin M → Fin N → ℤ) (s : LDPCState M N) :
    (bpStep H s).runs = s.runs := by
  simp [bpStep, check2variable_eq_buf, variable2check_eq_buf, check2variableBuf,
    variable2checkBuf, updatePred, checkConvergence]

theorem bpStep_ch_liks {M N : ℕ} (H : Fin M → Fin N → ℤ) (s : LDPCState M N) :
    (bpStep H s).ch_liks = s.ch_liks := by
  simp [bpStep, check2variable_eq_buf, variable2check_eq_buf, check2variableBuf,
    variable2checkBuf, updatePred, checkConvergence]

theorem bpLoop_runs {M N : ℕ} (H : Fin M → Fin N → ℤ) (fuel : ℕ) :
    ∀ s : LDPCState M N, (bpLoop H fuel s).runs = s.runs := by
  induction fuel with
  | zero => intro s; rfl
  | succ fuel ih =>
      intro s
      rw [bpLoop]
      split
      · rw [ih, bpStep_runs]
      · rfl

theorem bpLoop_ch_liks {M N : ℕ} (H : Fin M → Fin N → ℤ) (fuel : ℕ) :
    ∀ s : LDPCState M N, (bpLoop H fuel s).ch_liks = s.ch_liks := by
  induction fuel with
  | zero => intro s; rfl
  | succ fuel ih =>
      intro s
      rw [bpLoop]
      split
      · rw [ih, bpStep_ch_liks]
      · rfl

theorem bpLoop_l_le {M N : ℕ} (H : Fin M → Fin N → ℤ) (fuel : ℕ) :
    ∀ s : LDPCState M N, s.l ≤ s.runs → (bpLoop H fuel s).l ≤ s.runs := by
  induction fuel with
  | zero => intro s h; exact h
  | succ fuel ih =>
      intro s h
      rw [bpLoop]
      split
      · rename_i hg
        have h1 : (bpStep H s).l ≤ (bpStep H s).runs := by
          rw [bpStep_l, bpStep_runs]; omega
        have := ih (bpStep H s) h1
        rw [bpStep_runs] at this
        exact this
      · exact h

theorem bpLoop_exit {M N : ℕ} (H : Fin M → Fin N → ℤ) (fuel : ℕ) :
    ∀ s : LDPCState M N, s.runs - s.l ≤ fuel →
      ¬((bpLoop H fuel s).l < (bpLoop H fuel s).runs ∧
        (bpLoop H fuel s).converged = false) := by
  induction fuel with
  | zero =>
      intro s h
      simp only [bpLoop]
      omega
  | succ fuel ih =>
      intro s h
      rw [bpLoop]
      split
      · rename_i hg
        apply ih
        rw [bpStep_l, bpStep_runs]
        omega
      · rename_i hg
        exact hg

theorem bpLoop_shape {M N : ℕ} (H : Fin M → Fin N → ℤ) (fuel : ℕ) :
    ∀ s : LDPCState M N,
      bpLoop H fuel s = s ∨ ∃ s', bpLoop H fuel s = bpStep H s' := by
  induction fuel with
  | zero => intro s; exact Or.inl rfl
  | succ fuel ih =>
      intro s
      rw [bpLoop]
      split
      · rcases ih (bpStep H s) with h | ⟨s', h⟩
        · exact Or.inr ⟨s, h⟩
        · exact Or.inr ⟨s', h⟩
      · exact Or.inl rfl

theorem fmod2_nonneg (x : ℝ) : 0 ≤ fmod2 x := by
  unfold fmod2
  have h := Int.floor_le (x / 2)
  linarith

theorem checkConv_iff {M N : ℕ} (H : Fin M → Fin N → ℤ) (s : LDPCState M N) :
    ((checkConvergence H s).converged = true) ↔
      ∀ c, fmod2 (syndrome H s c) = 0 := by
  unfold checkConvergence
  have hsum : (∑ c, fmod2 (syndrome H s c)) = 0 ↔
      ∀ c ∈ Finset.univ, fmod2 (syndrome H s c) = 0 :=
    Finset.sum_eq_zero_iff_of_nonneg (fun c _ => fmod2_nonneg _)
  split
  · rename_i h
    simp only [true_iff]
    intro c
    exact (hsum.mp h) c (Finset.mem_univ c)
  · rename_i h
    simp only [Bool.false_eq_true, false_iff]
    intro hall
    exact h (hsum.mpr (fun c _ => hall c))

theorem bpStep_converged_iff {M N : ℕ} (H : Fin M → Fin N → ℤ)
    (s : LDPCState M N) :
    ((bpStep H s).converged = true) ↔
      ∀ c, fmod2 (syndrome H (bpStep H s) c) = 0 :=
  checkConv_iff H (updatePred (variable2check H (check2variable H s)))

theorem check2variable_eps {M N : ℕ} (H : Fin M → Fin N → ℤ)
    (s : LDPCState M N) (a : ℝ) :
    check2variable H { s with eps := a } = { check2variable H s with eps := a } := by
  rw [check2variable_eq_buf, check2variable_eq_buf]
  rfl

theorem variable2check_eps {M N : ℕ} (H : Fin M → Fin N → ℤ)
    (s : LDPCState M N) (a : ℝ) :
    variable2check H { s with eps := a } = { variable2check H s with eps := a } := by
  rw [variable2check_eq_buf, variable2check_eq_buf]
  rfl

theorem bpStep_eps {M N : ℕ} (H : Fin M → Fin N → ℤ) (s : LDPCState M N) (a : ℝ) :
    bpStep H { s with eps := a } = { bpStep H s with eps := a } := by
  unfold bpStep
  rw [check2variable_eps, variable2check_eps]
  rfl

theorem bpLoop_eps {M N : ℕ} (H : Fin M → Fin N → ℤ) (fuel : ℕ) :
    ∀ (s : LDPCState M N) (a : ℝ),
      bpLoop H fuel { s with eps := a } = { bpLoop H fuel s with eps := a } := by
  induction fuel with
  | zero => intro s a; rfl
  | succ fuel ih =>
      intro s a
      by_cases hg : s.l < s.runs ∧ s.converged = false
      · rw [bpLoop, bpLoop, if_pos hg, if_pos hg, bpStep_eps]
        exact ih _ a
      · rw [bpLoop, bpLoop, if_neg hg, if_neg hg]
  
theorem message_passing_eps {M N : ℕ} (H : Fin M → Fin N → ℤ)
    (s : LDPCState M N) (a : ℝ) :
    message_passing H { s with eps := a } = { message_passing H s with eps := a } := by
  unfold message_passing
  exact bpLoop_eps H (s.runs - s.l) s a

/-- Equality of every decode-session observable other than the stored
constructor argument `self.eps`. -/
def obsEq {M N : ℕ} (s1 s2 : LDPCState M N) : Prop :=
  s1.ch_liks = s2.ch_liks ∧ s1.var_liks = s2.var_liks ∧
  s1.c2v_lik = s2.c2v_lik ∧ s1.v2c_lik = s2.v2c_lik ∧
  s1.xpred = s2.xpred ∧ s1.l = s2.l ∧
  s1.converged = s2.converged ∧ s1.runs = s2.runs

theorem tanh_nonneg_of_nonneg (x : ℝ) (hx : 0 ≤ x) : 0 ≤ Real.tanh x := by
  rw [Real.tanh_eq_sinh_div_cosh]
  exact div_nonneg (Real.sinh_nonneg_iff.mpr hx) (Real.cosh_pos x).le

theorem tanh_lt_one_real (x : ℝ) : Real.tanh x < 1 := by
  rw [Real.tanh_eq_sinh_div_cosh, div_lt_one (Real.cosh_pos x)]
  nlinarith [Real.cosh_sub_sinh x, Real.exp_pos (-x)]

theorem prod_lt_one_of_nonneg_of_lt_one {ι : Type} {s : Finset ι} (f : ι → ℝ)
    (h0 : ∀ i ∈ s, 0 ≤ f i) (h1 : ∀ i ∈ s, f i < 1) (hs : s.Nonempty) :
    ∏ i ∈ s, f i < 1 := by
  classical
  obtain ⟨j, hj⟩ := hs
  rw [← Finset.mul_prod_erase s f hj]
  have hr0 : 0 ≤ ∏ i ∈ s.erase j, f i :=
    Finset.prod_nonneg fun i hi => h0 i (Finset.mem_of_mem_erase hi)
  have hr1 : (∏ i ∈ s.erase j, f i) ≤ 1 :=
    Finset.prod_le_one (fun i hi => h0 i (Finset.mem_of_mem_erase hi))
      (fun i hi => (h1 i (Finset.mem_of_mem_erase hi)).le)
  have hb := mul_le_mul_of_nonneg_left hr1 (h0 j hj)
  have := h1 j hj
  nlinarith

theorem c2vNewMsg_nonneg {M N : ℕ} (H : Fin M → Fin N → ℤ) (s : LDPCState M N)
    (c : Fin M) (v : Fin N)
    (h0 : ∀ u ∈ (c2v_idx H c).erase v, 0 ≤ s.v2c_lik u c)
    (hne : ((c2v_idx H c).erase v).Nonempty) :
    0 ≤ c2vNewMsg H s c v := by
  have hp0 : 0 ≤ c2vProd H s c v :=
    Finset.prod_nonneg fun u hu =>
      tanh_nonneg_of_nonneg _ (by linarith [h0 u hu])
  have hp1 : c2vProd H s c v < 1 :=
    prod_lt_one_of_nonneg_of_lt_one _
      (fun u hu => tanh_nonneg_of_nonneg _ (by linarith [h0 u hu]))
      (fun u _ => tanh_lt_one_real _) hne
  unfold c2vNewMsg
  apply Real.log_nonneg
  rw [le_div_iff₀ (by linarith)]
  linarith

/-- Parity-check matrix of the specification's concrete scenario:
`H = [[1,1,0],[0,1,1]]` (M = 2 checks, N = 3 variables). -/
def H9 : Fin 2 → Fin 3 → ℤ := ![![1, 1, 0], ![0, 1, 1]]

/-- Received vector of the concrete scenario: `y = [0,0,0]`. -/
def y9 : Fin 3 → ℤ := ![0, 0, 0]

/-- The session state `LDPC(H1, y1, eps)` builds in the `__main__` scenario
with module-level `eps = 0.1` (idealised as `1/10`) and the default budget
of `20` runs. -/
noncomputable def s9 : LDPCState 2 3 :=
  { ch_liks := fun i => epsLLR (1 / 10) (y9 i)
    var_liks := fun i => epsLLR (1 / 10) (y9 i)
    c2v_lik := fun _ _ => 0
    v2c_lik := fun i _ => epsLLR (1 / 10) (y9 i)
    xpred := fun _ => 0
    l := 0
    converged := false
    runs := 20
    eps := 1 / 10 }

theorem initLDPC_s9 : initLDPC y9 (1 / 10) 20 (some (1 / 10)) = some s9 := rfl

theorem s9_llr_eq (i : Fin 3) : epsLLR (1 / 10) (y9 i) = Real.log 9 := by
  have hy : y9 i = 0 := by fin_cases i <;> rfl
  rw [epsLLR, if_pos hy]
  norm_num

theorem s9_llr_nonneg (i : Fin 3) : 0 ≤ epsLLR (1 / 10) (y9 i) := by
  rw [s9_llr_eq i]
  exact Real.log_nonneg (by norm_num)

theorem s9_beliefs_nonneg (v : Fin 3) :
    0 ≤ (variable2check H9 (check2variable H9 s9)).var_liks v := by
  rw [variable2check_eq_buf]
  show 0 ≤ varBelief H9 (check2variable H9 s9) v
  unfold varBelief
  apply add_nonneg
  · rw [check2variable_eq_buf]
    exact s9_llr_nonneg v
  · apply Finset.sum_nonneg
    intro m hm
    have hv : v ∈ c2v_idx H9 m :=
      (mem_c2v_idx H9 m v).mpr ((mem_v2c_idx H9 v m).mp hm)
    rw [check2variable_eq_buf]
    show 0 ≤ if v ∈ c2v_idx H9 m then c2vNewMsg H9 s9 m v else s9.c2v_lik m v
    rw [if_pos hv]
    apply c2vNewMsg_nonneg
    · intro u _
      exact s9_llr_nonneg u
    · revert hv
      fin_cases m <;> fin_cases v <;> decide

theorem bpStep_s9_xpred : (bpStep H9 s9).xpred = fun _ => (0 : ℝ) := by
  funext v
  show (if (variable2check H9 (check2variable H9 s9)).var_liks v ≥ 0
      then (0 : ℝ) else 1) = 0
  rw [if_pos (s9_beliefs_nonneg v)]

theorem bpStep_s9_converged : (bpStep H9 s9).converged = true := by
  rw [bpStep_converged_iff]
  intro c
  unfold syndrome
  rw [bpStep_s9_xpred]
  simp [fmod2]

theorem message_passing_s9 : message_passing H9 s9 = bpStep H9 s9 := by
  show bpLoop H9 20 s9 = bpStep H9 s9
  have h20 : (20 : ℕ) = 19 + 1 := rfl
  rw [h20, bpLoop, if_pos (by constructor <;> decide :
    s9.l < s9.runs ∧ s9.converged = false)]
  have h19 : (19 : ℕ) = 18 + 1 := rfl
  rw [h19, bpLoop, if_neg]
  rintro ⟨-, hc⟩
  rw [bpStep_s9_converged] at hc
  exact absurd hc (by decide)

/-- C1: the convergence flag set by `_checkConvergence` is true exactly when
every entry of the syndrome `(H · xpred) mod 2` is zero — `sum(...) == 0`
decides all-zero because each `mod 2` entry is non-negative — both for any
prediction just produced by `_updatePred` and for the state returned by
`message_passing` (unless the loop body never ran, in which case the state,
and in Python even the absence of the `xpred` attribute, is unchanged). -/
theorem ldpc_C1 {M N : ℕ} (H : Fin M → Fin N → ℤ) (s : LDPCState M N) :
    (((checkConvergence H (updatePred s)).converged = true) ↔
      ∀ c, fmod2 (syndrome H (updatePred s) c) = 0) ∧
    (message_passing H s = s ∨
      (((message_passing H s).converged = true) ↔
        ∀ c, fmod2 (syndrome H (message_passing H s) c) = 0)) := by
  constructor
  · exact checkConv_iff H (updatePred s)
  · rcases bpLoop_shape H (s.runs - s.l) s with h | ⟨s', h⟩
    · exact Or.inl h
    · right
      rw [show message_passing H s = bpStep H s' from h]
      exact bpStep_converged_iff H s'

/-- C3: the iteration counter returned by `message_passing` never exceeds the
budget `runs`, and when the returned convergence flag is false the counter
equals the budget exactly. -/
theorem ldpc_C3 {M N : ℕ} (H : Fin M → Fin N → ℤ) (s : LDPCState M N)
    (h : s.l ≤ s.runs) :
    (message_passing H s).l ≤ s.runs ∧
    ((message_passing H s).converged = false →
      (message_passing H s).l = s.runs) := by
  constructor
  · exact bpLoop_l_le H (s.runs - s.l) s h
  · intro hc
    have hex := bpLoop_exit H (s.runs - s.l) s (le_refl _)
    have hl : (message_passing H s).l ≤ s.runs := bpLoop_l_le H (s.runs - s.l) s h
    have h2 : ¬((message_passing H s).l < (message_passing H s).runs) :=
      fun hlt => hex ⟨hlt, hc⟩
    have hr2 : (message_passing H s).runs = s.runs :=
      bpLoop_runs H (s.runs - s.l) s
    omega

/-- Witness for C3 at the concrete scenario session. -/
theorem ldpc_C3_witness :
    s9.l ≤ s9.runs ∧
    ((message_passing H9 s9).l ≤ s9.runs ∧
     ((message_passing H9 s9).converged = false →
       (message_passing H9 s9).l = s9.runs)) :=
  ⟨by decide, ldpc_C3 H9 s9 (by decide)⟩

/-- C2: the decoder ignores the constructor's `eps` argument.  With no
module-level `eps` bound, construction fails (`NameError`); with the same
module-level binding, two sessions built with different constructor `eps`
arguments get identical channel LLRs and all their observables after
`message_passing` (messages, beliefs, prediction, counter, convergence
flag, budget) coincide. -/
theorem ldpc_C2 {M N : ℕ} (H : Fin M → Fin N → ℤ) (y : Fin N → ℤ)
    (e1 e2 mE : ℝ) (runs : ℕ) :
    initLDPC (M := M) y e1 runs none = none ∧
    ∃ s1 s2 : LDPCState M N,
      initLDPC y e1 runs (some mE) = some s1 ∧
      initLDPC y e2 runs (some mE) = some s2 ∧
      s1.ch_liks = s2.ch_liks ∧
      obsEq (message_passing H s1) (message_passing H s2) := by
  refine ⟨rfl, initState y e1 runs mE, initState y e2 runs mE, rfl, rfl, rfl, ?_⟩
  have h2 : initState (M := M) y e2 runs mE =
      { initState (M := M) y e1 runs mE with eps := e2 } := rfl
  rw [h2, message_passing_eps H (initState y e1 runs mE) e2]
  exact ⟨rfl, rfl, rfl, rfl, rfl, rfl, rfl, rfl⟩

/-- C4 counterexample: constructing a session with error probability `2`
(outside `(0,1)`) and the non-binary received vector `[2]` succeeds and
creates the full decode state — nothing is rejected and no
`InvalidParameterError` exists anywhere in the code. -/
theorem ldpc_C4_counterexample :
    (initLDPC (M := 1) ![2] (2 : ℝ) 20 (some 2)).isSome = true := rfl

/-- C4 amended: session construction performs no validation at all.  For any
received vector (binary or not) and any error probability whose LLR
arithmetic does not divide by zero (`e ≠ 0` and `1 - e ≠ 0`; at those two
points Python dies with `ZeroDivisionError`, still not an
`InvalidParameterError`), construction succeeds and builds the full decode
state. -/
theorem ldpc_C4 {M N : ℕ} (y : Fin N → ℤ) (se e : ℝ) (runs : ℕ)
    (_h0 : e ≠ 0) (_h1 : (1 : ℝ) - e ≠ 0) :
    initLDPC (M := M) y se runs (some e) = some (initState y se runs e) := rfl

/-- Witness for C4 at error probability `2` and received vector `[2]`. -/
theorem ldpc_C4_witness :
    ((2 : ℝ) ≠ 0 ∧ (1 : ℝ) - 2 ≠ 0) ∧
    initLDPC (M := 1) ![2] (2 : ℝ) 20 (some 2) =
      some (initState ![2] (2 : ℝ) 20 2) :=
  ⟨⟨by norm_num, by norm_num⟩, ldpc_C4 ![2] 2 2 20 (by norm_num) (by norm_num)⟩

/-- Degree-1 parity-check matrix: one check constraining one variable. -/
def H5 : Fin 1 → Fin 1 → ℤ := ![![1]]

/-- A session on the degree-1 code (received `[0]`, `eps = 1/2`). -/
noncomputable def s5 : LDPCState 1 1 := initState ![0] (1 / 2) 20 (1 / 2)

/-- C5: no clamping happens.  For the degree-1 check of `H5`, the product
`p` is the empty product `1`, which lies outside every "safe subinterval of
`(-1, 1)`", and the stored message is the raw `ln((1+p)/(1-p))` evaluated at
`p = 1`, i.e. the log of a division by zero (`+inf` in the numpy
arithmetic the code runs). -/
theorem ldpc_C5 :
    c2vProd H5 s5 0 0 = 1 ∧
    ¬(-1 < c2vProd H5 s5 0 0 ∧ c2vProd H5 s5 0 0 < 1) ∧
    (check2variable H5 s5).c2v_lik 0 0 = Real.log ((1 + 1) / (1 - 1)) := by
  have he : (c2v_idx H5 0).erase 0 = (∅ : Finset (Fin 1)) := by decide
  have hp : c2vProd H5 s5 0 0 = 1 := by
    unfold c2vProd
    rw [he, Finset.prod_empty]
  refine ⟨hp, ?_, ?_⟩
  · rintro ⟨-, hlt⟩
    rw [hp] at hlt
    exact lt_irrefl 1 hlt
  · rw [check2variable_eq_buf]
    have hv : (0 : Fin 1) ∈ c2v_idx H5 0 := by decide
    show (if (0 : Fin 1) ∈ c2v_idx H5 0 then c2vNewMsg H5 s5 0 0
        else s5.c2v_lik 0 0) = _
    rw [if_pos hv]
    unfold c2vNewMsg
    rw [hp]

/-- C6: for a binary matrix, one check-to-variable round sets the message
`(c → v)` on every edge to `ln((1+p)/(1-p))`, with `p` the product of
`tanh(m/2)` over the previous variable-to-check messages of the neighbours
of `c` other than `v` (neighbours read off `H` directly), and for a
degree-1 check that product is the empty product `1`. -/
theorem ldpc_C6 {M N : ℕ} (H : Fin M → Fin N → ℤ) (s : LDPCState M N)
    (c : Fin M) (v : Fin N) (hH : IsBinaryMatrix H) (hcv : H c v = 1) :
    (check2variable H s).c2v_lik c v =
      Real.log ((1 + ∏ u ∈ (Finset.univ.filter fun u => H c u = 1).erase v,
          Real.tanh (s.v2c_lik u c / 2)) /
        (1 - ∏ u ∈ (Finset.univ.filter fun u => H c u = 1).erase v,
          Real.tanh (s.v2c_lik u c / 2))) ∧
    ((Finset.univ.filter fun u => H c u = 1) = {v} →
      (∏ u ∈ (Finset.univ.filter fun u => H c u = 1).erase v,
          Real.tanh (s.v2c_lik u c / 2)) = 1) := by
  have hidx : c2v_idx H c = Finset.univ.filter fun u => H c u = 1 := by
    ext u
    rw [mem_c2v_idx, Finset.mem_filter]
    rcases hH c u with h | h <;> simp [h]
  constructor
  · rw [check2variable_eq_buf]
    have hv : v ∈ c2v_idx H c :=
      (mem_c2v_idx H c v).mpr (by rw [hcv]; exact one_ne_zero)
    show (if v ∈ c2v_idx H c then c2vNewMsg H s c v else s.c2v_lik c v) = _
    rw [if_pos hv]
    unfold c2vNewMsg c2vProd
    rw [hidx]
  · intro hsingle
    rw [hsingle, Finset.erase_singleton, Finset.prod_empty]

/-- Witness for C6 on the concrete scenario edge (check 0, variable 0). -/
theorem ldpc_C6_witness :
    (IsBinaryMatrix H9 ∧ H9 0 0 = 1) ∧
    ((check2variable H9 s9).c2v_lik 0 0 =
      Real.log ((1 + ∏ u ∈ (Finset.univ.filter fun u => H9 0 u = 1).erase 0,
          Real.tanh (s9.v2c_lik u 0 / 2)) /
        (1 - ∏ u ∈ (Finset.univ.filter fun u => H9 0 u = 1).erase 0,
          Real.tanh (s9.v2c_lik u 0 / 2))) ∧
    ((Finset.univ.filter fun u => H9 0 u = 1) = {0} →
      (∏ u ∈ (Finset.univ.filter fun u => H9 0 u = 1).erase 0,
          Real.tanh (s9.v2c_lik u 0 / 2)) = 1)) :=
  ⟨⟨by decide, by decide⟩, ldpc_C6 H9 s9 0 0 (by decide) (by decide)⟩

/-- C7: for a binary matrix, one variable-to-check round sets the message
`(v → c)` on every edge to the channel LLR of `v` plus the sum of the
current check-to-variable messages over the neighbours of `v` other than
`c`, simultaneously sets the belief of `v` to the channel LLR plus the sum
over all neighbours, and the messages it produces do not depend on the
belief vector (the belief is never fed back). -/
theorem ldpc_C7 {M N : ℕ} (H : Fin M → Fin N → ℤ) (s : LDPCState M N)
    (hH : IsBinaryMatrix H) :
    (∀ v c, H c v = 1 →
      (variable2check H s).v2c_lik v c =
        s.ch_liks v + ∑ m ∈ (Finset.univ.filter fun m => H m v = 1).erase c,
          s.c2v_lik m v) ∧
    (∀ v, (variable2check H s).var_liks v =
        s.ch_liks v + ∑ m ∈ (Finset.univ.filter fun m => H m v = 1),
          s.c2v_lik m v) ∧
    (∀ f : Fin N → ℝ,
      (variable2check H { s with var_liks := f }).v2c_lik =
        (variable2check H s).v2c_lik) := by
  have hidx : ∀ v, v2c_idx H v = Finset.univ.filter fun m => H m v = 1 := by
    intro v
    ext m
    rw [mem_v2c_idx, Finset.mem_filter]
    rcases hH m v with h | h <;> simp [h]
  refine ⟨?_, ?_, ?_⟩
  · intro v c hcv
    rw [variable2check_eq_buf]
    have hc : c ∈ v2c_idx H v :=
      (mem_v2c_idx H v c).mpr (by rw [hcv]; exact one_ne_zero)
    show (if c ∈ v2c_idx H v then v2cNewMsg H s v c else s.v2c_lik v c) = _
    rw [if_pos hc]
    unfold v2cNewMsg
    rw [hidx v]
  · intro v
    rw [variable2check_eq_buf]
    show varBelief H s v = _
    unfold varBelief
    rw [hidx v]
  · intro f
    rw [variable2check_eq_buf, variable2check_eq_buf]
    rfl

/-- Witness for C7 on the concrete scenario session. -/
theorem ldpc_C7_witness :
    IsBinaryMatrix H9 ∧
    ((∀ v c, H9 c v = 1 →
      (variable2check H9 s9).v2c_lik v c =
        s9.ch_liks v + ∑ m ∈ (Finset.univ.filter fun m => H9 m v = 1).erase c,
          s9.c2v_lik m v) ∧
    (∀ v, (variable2check H9 s9).var_liks v =
        s9.ch_liks v + ∑ m ∈ (Finset.univ.filter fun m => H9 m v = 1),
          s9.c2v_lik m v) ∧
    (∀ f : Fin 3 → ℝ,
      (variable2check H9 { s9 with var_liks := f }).v2c_lik =
        (variable2check H9 s9).v2c_lik)) :=
  ⟨by decide, ldpc_C7 H9 s9 (by decide)⟩

/-- C8: both update rounds follow the flooding schedule — the in-place
single-buffer loops of `_check2variable` and `_variable2check` compute
exactly the states of the double-buffered rounds in which every message is
derived from the complete previous message set, because each round reads
only the opposite message family. -/
theorem ldpc_C8 {M N : ℕ} (H : Fin M → Fin N → ℤ) (s : LDPCState M N) :
    check2variable H s = check2variableBuf H s ∧
    variable2check H s = variable2checkBuf H s :=
  ⟨check2variable_eq_buf H s, variable2check_eq_buf H s⟩

/-- C9: on the concrete scenario `H = [[1,1,0],[0,1,1]]`, `y = [0,0,0]`,
`eps = 0.1`, the constructed session decodes to the all-zero prediction
with the convergence flag set after exactly one iteration. -/
theorem ldpc_C9 :
    initLDPC y9 (1 / 10) 20 (some (1 / 10)) = some s9 ∧
    (message_passing H9 s9).xpred = (fun _ => 0) ∧
    (message_passing H9 s9).converged = true ∧
    (message_passing H9 s9).l ≤ 1 := by
  refine ⟨initLDPC_s9, ?_, ?_, ?_⟩
  · rw [message_passing_s9]
    exact bpStep_s9_xpred
  · rw [message_passing_s9]
    exact bpStep_s9_converged
  · rw [message_passing_s9, bpStep_l]
    decide

/-- C10: the channel LLR vector is never modified — not by either message
round, nor by the prediction update, nor by the convergence check, nor by
any number of `message_passing` iterations (the belief vector `var_liks` is
a separate copy, so writing beliefs leaves `ch_liks` untouched). -/
theorem ldpc_C10 {M N : ℕ} (H : Fin M → Fin N → ℤ) (s : LDPCState M N) :
    (check2variable H s).ch_liks = s.ch_liks ∧
    (variable2check H s).ch_liks = s.ch_liks ∧
    (updatePred s).ch_liks = s.ch_liks ∧
    (checkConvergence H s).ch_liks = s.ch_liks ∧
    (∀ fuel, (bpLoop H fuel s).ch_liks = s.ch_liks) ∧
    (message_passing H s).ch_liks = s.ch_liks := by
  refine ⟨?_, ?_, rfl, rfl, fun fuel => bpLoop_ch_liks H fuel s,
    bpLoop_ch_liks H (s.runs - s.l) s⟩
  · rw [check2variable_eq_buf]
    rfl
  · rw [variable2check_eq_buf]
    rfl
